import Mathlib

/-!
Shallow embedding of `django_model_changes/changes.py`: the per-instance
change tracker `InstanceChanges`, its snapshot list `_states`, the field
reader `current_state`, and the diff and persistence queries built on them.
Python dictionaries are association lists in insertion order, Python field
values are the inductive `Value`, fallible operations (IndexError on an
empty `_states`, KeyError in `_changes`) return `Option`.
-/

/-- Field values stored on model instances and in captured state dicts:
Python None, integers and strings (a cached related record is itself such
an opaque comparable value). -/
inductive Value
  | vnone
  | vint (n : Int)
  | vstr (s : String)
  deriving DecidableEq, Repr

/-- Python truthiness as `bool(...)` computes it in `was_persisted` and
`is_persisted`: None, 0 and the empty string are falsy. -/
def truthy : Value → Bool
  | Value.vnone => false
  | Value.vint n => if n = 0 then false else true
  | Value.vstr s => if s = "" then false else true

/-- A Python dict with string keys, kept in insertion order. -/
abbrev PyDict (α : Type) := List (String × α)

/-- Python `d[k]` made total: the value stored at `k`, or `none` where
Python raises KeyError. -/
def pydict_get {α : Type} : PyDict α → String → Option α
  | [], _ => none
  | (k1, v) :: rest, k => if k1 = k then some v else pydict_get rest k

/-- Python `d[k] = v`: overwrite in place when the key exists, else append
at the end. -/
def dict_set {α : Type} : PyDict α → String → α → PyDict α
  | [], k, v => [(k, v)]
  | (k1, v1) :: rest, k, v =>
    if k1 = k then (k, v) :: rest else (k1, v1) :: dict_set rest k v

/-- The keys of a dict, in order. -/
def pykeys {α : Type} (d : PyDict α) : List String := d.map Prod.fst

/-- A model field as `current_state` consults it: the stored attribute
name `attname` (for a relation field e.g. `user_id`), the accessor `name`
(e.g. `user`) and whether `field.rel` is set. -/
structure ModelField where
  attname : String
  name : String
  rel : Bool
  deriving DecidableEq, Repr

/-- The model metadata read by changes.py: `_meta.local_fields` and
`_meta.pk.attname`. -/
structure Meta where
  local_fields : List ModelField
  pk_attname : String

/-- A live model instance: the stored attributes (every local field's
attname is always set on a model instance) and the relation cache, keyed
here by field name — a key is present exactly when
`hasattr(instance, descriptor.cache_name)` holds. -/
structure Instance where
  attrs : String → Value
  relCache : PyDict Value

/-- One iteration of the field loop in `InstanceChanges.current_state`:
store the attname value, and for a relation field additionally the cached
related value when (and only when) the cache is populated. -/
def read_field (inst : Instance) (fields : PyDict Value) (f : ModelField) : PyDict Value :=
  let fields := dict_set fields f.attname (inst.attrs f.attname)
  if f.rel then
    match pydict_get inst.relCache f.name with
    | some v => dict_set fields f.name v
    | none => fields
  else fields

/-- `InstanceChanges.current_state`: a field-to-value dict read from the
live instance, one entry per local field attname plus the cached value of
each populated relation under the field name. -/
def current_state (meta : Meta) (inst : Instance) : PyDict Value :=
  meta.local_fields.foldl (read_field inst) []

/-- The tracker's mutable data: the tracked live instance
(`self.instance`) and the snapshot list (`self._states`). -/
structure TrackerState where
  inst : Instance
  states : List (PyDict Value)

/-- The history update inside `InstanceChanges._save_state`: append the
new snapshot, then `pop(0)` once when the length exceeds 2. -/
def push (states : List (PyDict Value)) (s : PyDict Value) : List (PyDict Value) :=
  let states := states ++ [s]
  if states.length > 2 then states.drop 1 else states

/-- The module constants SAVE = 0 and DELETE = 1 (the default string
argument of `_save_state`, which is not DELETE, behaves as save). -/
inductive EventType
  | save
  | delete
  deriving DecidableEq, Repr

/-- The statement `self.instance.pk = None`: clear the stored attribute
named by `_meta.pk.attname`. -/
def clear_pk (meta : Meta) (inst : Instance) : Instance :=
  { inst with attrs := fun a => if a = meta.pk_attname then Value.vnone else inst.attrs a }

/-- `InstanceChanges._save_state`: on DELETE first clear the primary key
on the live instance, capture `current_state` into the history with the
capacity-2 eviction, and unless `new_instance` send one `post_change`
signal. The returned list holds the signals sent, each carrying
`self.instance` and `self` exactly as they stand at send time (after the
push). -/
def save_state (meta : Meta) (t : TrackerState) (new_instance : Bool)
    (event_type : EventType) : TrackerState × List (Instance × TrackerState) :=
  let inst := if event_type = EventType.delete then clear_pk meta t.inst else t.inst
  let t2 : TrackerState := ⟨inst, push t.states (current_state meta inst)⟩
  (t2, if new_instance then [] else [(inst, t2)])

/-- `InstanceChanges.__init__`: start with `_states = []` and perform the
construction-time capture with `new_instance=True`. -/
def init_tracker (meta : Meta) (inst : Instance) :
    TrackerState × List (Instance × TrackerState) :=
  save_state meta ⟨inst, []⟩ true EventType.save

/-- `InstanceChanges.previous_state`: `_states[1]` when more than one
snapshot is stored, else `_states[0]`; `none` models the IndexError on an
empty history. -/
def previous_state (t : TrackerState) : Option (PyDict Value) :=
  if t.states.length > 1 then t.states.get? 1 else t.states.get? 0

/-- `InstanceChanges.old_state`: `_states[0]`; `none` models the
IndexError on an empty history. -/
def old_state (t : TrackerState) : Option (PyDict Value) :=
  t.states.get? 0

/-- `InstanceChanges._changes(other, current)`: one entry per key of
`other` whose value differs from `current[key]`; `none` models the
KeyError when a key of `other` is missing from `current`. -/
def diff_changes (other current : PyDict Value) : Option (PyDict (Value × Value)) :=
  match other with
  | [] => some []
  | (k, was) :: rest =>
    match pydict_get current k, diff_changes rest current with
    | some c, some tail => some (if was ≠ c then (k, (was, c)) :: tail else tail)
    | _, _ => none

/-- `InstanceChanges.changes`: `_changes(previous_state(), current_state())`. -/
def changes (meta : Meta) (t : TrackerState) : Option (PyDict (Value × Value)) :=
  (previous_state t).bind (fun p => diff_changes p (current_state meta t.inst))

/-- `InstanceChanges.old_changes`: `_changes(old_state(), current_state())`. -/
def old_changes (meta : Meta) (t : TrackerState) : Option (PyDict (Value × Value)) :=
  (old_state t).bind (fun o => diff_changes o (current_state meta t.inst))

/-- `InstanceChanges.previous_changes`:
`_changes(old_state(), previous_state())`; note it reads no live field. -/
def previous_changes (t : TrackerState) : Option (PyDict (Value × Value)) :=
  (old_state t).bind (fun o => (previous_state t).bind (fun p => diff_changes o p))

/-- `InstanceChanges.was_persisted`:
`bool(self.old_state()[pk_attname])`. -/
def was_persisted (meta : Meta) (t : TrackerState) : Option Bool :=
  (old_state t).bind (fun s => (pydict_get s meta.pk_attname).map truthy)

/-- `InstanceChanges.is_persisted`: `bool(self.instance.pk)`, a live read
of the tracked instance. -/
def is_persisted (meta : Meta) (t : TrackerState) : Bool :=
  truthy (t.inst.attrs meta.pk_attname)

/-- Does some relation field of the model use `k` as its accessor name?
This decides whether `setattr(instance, k, v)` goes through a relation
descriptor. -/
def relname (meta : Meta) (k : String) : Bool :=
  meta.local_fields.any (fun f => f.rel && f.name == k)

/-- `self.instance.__class__()` in `_instance_from_state`: a fresh
detached instance. Framework default attribute values are modelled as
None (every captured state assigns all local field attnames, so defaults
are never read back in the round-trip); its relation cache starts
unpopulated. -/
def fresh_instance : Instance := ⟨fun _ => Value.vnone, []⟩

/-- Python `setattr(instance, k, v)` on a model instance: assignment
through a relation field's accessor name goes through the framework
descriptor, which stores the value in the relation cache (external
field-writer capability, spec section 6); any other key is a plain
attribute write. -/
def set_attr (meta : Meta) (inst : Instance) (k : String) (v : Value) : Instance :=
  if relname meta k then
    { inst with relCache := dict_set inst.relCache k v }
  else
    { inst with attrs := fun a => if a = k then v else inst.attrs a }

/-- `InstanceChanges._instance_from_state`: a fresh instance with every
entry of the state assigned by `setattr`. -/
def instance_from_state (meta : Meta) (state : PyDict Value) : Instance :=
  state.foldl (fun i p => set_attr meta i p.1 p.2) fresh_instance

/-- `InstanceChanges.old_instance`: `_instance_from_state(old_state())`. -/
def old_instance (meta : Meta) (t : TrackerState) : Option Instance :=
  (old_state t).map (instance_from_state meta)

/-- `InstanceChanges.previous_instance`:
`_instance_from_state(previous_state())`. -/
def previous_instance (meta : Meta) (t : TrackerState) : Option Instance :=
  (previous_state t).map (instance_from_state meta)

/-- One externally visible event on a tracked instance after
construction: a save capture, a delete capture, or an external mutation
of the live instance's fields between captures. -/
inductive Ev
  | save
  | delete
  | mutate (inst : Instance)

/-- Deliver one event to the tracker, as the `post_save` handler routes a
save (`instance._changes._save_state(new_instance=False, ...)`) and as
the intended routing of a delete does. -/
def step (meta : Meta) (t : TrackerState) : Ev → TrackerState
  | Ev.save => (save_state meta t false EventType.save).1
  | Ev.delete => (save_state meta t false EventType.delete).1
  | Ev.mutate i => { t with inst := i }

/-- A whole post-construction event sequence. -/
def run_events (meta : Meta) (t : TrackerState) (evs : List Ev) : TrackerState :=
  evs.foldl (step meta) t

/-- Well-formedness of model metadata, true of every Django model:
attnames are pairwise distinct, no relation accessor name collides with
any attname, and relation accessor names are pairwise distinct. -/
abbrev MetaWF (meta : Meta) : Prop :=
  ((meta.local_fields.map ModelField.attname).Nodup) ∧
  (∀ f ∈ meta.local_fields, relname meta f.attname = false) ∧
  (((meta.local_fields.filter ModelField.rel).map ModelField.name).Nodup)

/-- A one-field model (integer primary key `id`). -/
def meta1 : Meta := ⟨[⟨"id", "id", false⟩], "id"⟩

/-- An instance of `meta1` with the given primary key value. -/
def inst_id (v : Value) : Instance :=
  ⟨fun k => if k = "id" then v else Value.vnone, []⟩

/-- A two-field model: integer primary key `id` and a `name` field. -/
def meta2 : Meta := ⟨[⟨"id", "id", false⟩, ⟨"name", "name", false⟩], "id"⟩

/-- An instance of `meta2` with the given `id` and `name` values. -/
def inst_id_name (i nv : Value) : Instance :=
  ⟨fun k => if k = "id" then i else if k = "name" then nv else Value.vnone, []⟩

/-- A tracker freshly constructed for a `meta1` instance with primary key 5. -/
def t_id5 : TrackerState := (init_tracker meta1 (inst_id (Value.vint 5))).1

/-- The tracker of `t_id5` after its live instance was mutated to primary
key 6 with no intervening capture. -/
def t_id5_mut : TrackerState := ⟨inst_id (Value.vint 6), t_id5.states⟩

/-- The tracker of `t_id5` after a delete event (`_save_state` with
`new_instance=False, event_type=DELETE`). -/
def t_del5 : TrackerState := (save_state meta1 t_id5 false EventType.delete).1

/-- Three-capture scenario of C3: construct with pk null and name "x"
(capture A), save after the pk became 1 (capture B), save after the name
changed to "y" (capture C). -/
def t_abc : TrackerState :=
  run_events meta2 (init_tracker meta2 (inst_id_name Value.vnone (Value.vstr "x"))).1
    [Ev.mutate (inst_id_name (Value.vint 1) (Value.vstr "x")), Ev.save,
     Ev.mutate (inst_id_name (Value.vint 1) (Value.vstr "y")), Ev.save]

/-- Construct-then-save scenario of C7: pk null at construction, saved
once after the pk became 7. -/
def t_pk7 : TrackerState :=
  run_events meta1 (init_tracker meta1 (inst_id Value.vnone)).1
    [Ev.mutate (inst_id (Value.vint 7)), Ev.save]

/-- A model with an integer primary key and one relation field
(attname `rel_id`, accessor name `rel`). -/
def metaR : Meta := ⟨[⟨"id", "id", false⟩, ⟨"rel_id", "rel", true⟩], "id"⟩

/-- A `metaR` instance whose relation cache is populated. -/
def inst_rel_cached : Instance :=
  ⟨fun k => if k = "id" then Value.vint 1 else
    if k = "rel_id" then Value.vint 9 else Value.vnone,
   [("rel", Value.vint 9)]⟩

/-- The same `metaR` instance with an unpopulated relation cache. -/
def inst_rel_uncached : Instance :=
  ⟨fun k => if k = "id" then Value.vint 1 else
    if k = "rel_id" then Value.vint 9 else Value.vnone,
   []⟩

/-- A tracker whose construction-time snapshot was captured while the
relation cache was populated, the cache having been dropped from the live
instance afterwards: the earlier snapshot now has a key the live read
lacks. -/
def t_rel : TrackerState :=
  run_events metaR (init_tracker metaR inst_rel_cached).1
    [Ev.mutate inst_rel_uncached]

/-- The snapshot captured from the cached `metaR` instance. -/
def s_rel : PyDict Value := current_state metaR inst_rel_cached

/-- Lookup after writing the same key finds the written value. -/
theorem get_dict_set_eq {α : Type} (d : PyDict α) (k : String) (v : α) :
    pydict_get (dict_set d k v) k = some v := by
  induction d with
  | nil => simp [dict_set, pydict_get]
  | cons p rest ih =>
    obtain ⟨k1, v1⟩ := p
    by_cases h : k1 = k
    · simp [dict_set, h, pydict_get]
    · simp [dict_set, h, pydict_get, ih]

/-- Lookup at another key is unchanged by a write. -/
theorem get_dict_set_ne {α : Type} {k1 k : String} (hne : k1 ≠ k)
    (d : PyDict α) (v : α) :
    pydict_get (dict_set d k1 v) k = pydict_get d k := by
  induction d with
  | nil => simp [dict_set, pydict_get, hne]
  | cons p rest ih =>
    obtain ⟨k2, v2⟩ := p
    by_cases h2 : k2 = k1
    · subst h2
      simp [dict_set, pydict_get, hne]
    · simp [dict_set, h2, pydict_get, ih]

/-- A write adds at most its own key to the key set. -/
theorem mem_pykeys_dict_set {α : Type} (d : PyDict α) (k a : String) (v : α) :
    a ∈ pykeys (dict_set d k v) ↔ a ∈ pykeys d ∨ a = k := by
  induction d with
  | nil => simp [dict_set, pykeys]
  | cons p rest ih =>
    obtain ⟨k1, v1⟩ := p
    by_cases h : k1 = k
    · subst h
      simp [dict_set, pykeys]
      tauto
    · simp [dict_set, h, pykeys] at ih ⊢
      tauto

/-- A write preserves distinctness of the keys. -/
theorem nodup_pykeys_dict_set {α : Type} (k : String) (v : α) :
    ∀ d : PyDict α, (pykeys d).Nodup → (pykeys (dict_set d k v)).Nodup := by
  intro d
  induction d with
  | nil =>
    intro _
    simp [dict_set, pykeys]
  | cons p rest ih =>
    obtain ⟨k1, v1⟩ := p
    intro h
    obtain ⟨h1, h2⟩ : k1 ∉ pykeys rest ∧ (pykeys rest).Nodup := by
      simp only [pykeys, List.map_cons, List.nodup_cons] at h
      exact h
    by_cases hk : k1 = k
    · subst hk
      simp only [dict_set, if_pos rfl]
      exact h
    · simp only [dict_set, if_neg hk, pykeys, List.map_cons, List.nodup_cons]
      refine ⟨?_, ih h2⟩
      intro hmem
      rcases (mem_pykeys_dict_set rest k k1 v).mp hmem with hm | he
      · exact h1 hm
      · exact hk he

/-- Lookup fails exactly when the key is absent. -/
theorem get_eq_none_iff {α : Type} (d : PyDict α) (k : String) :
    pydict_get d k = none ↔ k ∉ pykeys d := by
  induction d with
  | nil => simp [pydict_get, pykeys]
  | cons p rest ih =>
    obtain ⟨k1, v1⟩ := p
    by_cases h : k1 = k
    · subst h
      simp [pydict_get, pykeys]
    · simp [pydict_get, h, Ne.symm h, pykeys, ih]

/-- The diff of `_changes` fails exactly when some key of the earlier dict
is missing from the later one. -/
theorem diff_changes_none_iff (prev curr : PyDict Value) :
    diff_changes prev curr = none ↔ ∃ p ∈ prev, pydict_get curr p.1 = none := by
  induction prev with
  | nil => simp [diff_changes]
  | cons p rest ih =>
    obtain ⟨k, w⟩ := p
    constructor
    · intro h
      simp only [diff_changes] at h
      cases hc : pydict_get curr k with
      | none => exact ⟨(k, w), List.mem_cons_self _ _, hc⟩
      | some c =>
        rw [hc] at h
        cases hr : diff_changes rest curr with
        | none =>
          obtain ⟨p, hp, hn⟩ := ih.mp hr
          exact ⟨p, List.mem_cons_of_mem _ hp, hn⟩
        | some tail =>
          rw [hr] at h
          exact absurd h (by simp)
    · rintro ⟨p, hp, hn⟩
      simp only [diff_changes]
      rcases List.mem_cons.mp hp with he | hm
      · subst he
        have hn2 : pydict_get curr k = none := hn
        rw [hn2]
      · rw [ih.mpr ⟨p, hm, hn⟩]
        cases pydict_get curr k <;> rfl

/-- Keys of a successful diff all come from the earlier dict. -/
theorem diff_changes_keys (curr : PyDict Value) :
    ∀ (prev : PyDict Value) (d : PyDict (Value × Value)),
      diff_changes prev curr = some d → ∀ k ∈ pykeys d, k ∈ pykeys prev := by
  intro prev
  induction prev with
  | nil =>
    intro d h k hk
    simp [diff_changes] at h
    subst h
    simp [pykeys] at hk
  | cons p rest ih =>
    obtain ⟨k1, w1⟩ := p
    intro d h k hk
    simp only [diff_changes] at h
    cases hc : pydict_get curr k1 with
    | none =>
      rw [hc] at h
      cases h
    | some c =>
      cases hr : diff_changes rest curr with
      | none =>
        rw [hc, hr] at h
        cases h
      | some tail =>
        rw [hc, hr] at h
        have hd := Option.some.inj h
        subst hd
        have htail : k ∈ pykeys tail → k ∈ pykeys ((k1, w1) :: rest) := by
          intro hm
          exact List.mem_cons_of_mem _ (ih tail hr k hm)
        by_cases hne : w1 ≠ c
        · rw [if_pos hne] at hk
          rcases (by simpa [pykeys] using hk : k = k1 ∨ k ∈ pykeys tail) with he | hm
          · subst he
            simp [pykeys]
          · exact htail hm
        · rw [if_neg hne] at hk
          exact htail hk

/-- Per-key description of a successful `_changes` diff: the result binds
`k` to `(w, c)` exactly when the earlier dict holds `w` at `k`, the later
holds `c`, and the two differ. -/
theorem diff_changes_get (curr : PyDict Value) :
    ∀ (prev : PyDict Value) (d : PyDict (Value × Value)),
      (pykeys prev).Nodup → diff_changes prev curr = some d →
      ∀ (k : String) (w c : Value),
        pydict_get d k = some (w, c) ↔
          pydict_get prev k = some w ∧ pydict_get curr k = some c ∧ w ≠ c := by
  intro prev
  induction prev with
  | nil =>
    intro d _ h k w c
    simp [diff_changes] at h
    subst h
    simp [pydict_get]
  | cons p rest ih =>
    obtain ⟨k1, w1⟩ := p
    intro d hnd h k w c
    obtain ⟨hnd1, hnd2⟩ : k1 ∉ pykeys rest ∧ (pykeys rest).Nodup := by
      simp only [pykeys, List.map_cons, List.nodup_cons] at hnd
      exact hnd
    simp only [diff_changes] at h
    cases hc : pydict_get curr k1 with
    | none =>
      rw [hc] at h
      cases h
    | some c1 =>
      cases hr : diff_changes rest curr with
      | none =>
        rw [hc, hr] at h
        cases h
      | some tail =>
        rw [hc, hr] at h
        have hd := Option.some.inj h
        subst hd
        by_cases hk : k1 = k
        · subst hk
          have hp : pydict_get ((k1, w1) :: rest) k1 = some w1 := by simp [pydict_get]
          rw [hp, hc]
          by_cases hne : w1 ≠ c1
          · rw [if_pos hne]
            have hl : pydict_get ((k1, (w1, c1)) :: tail) k1 = some (w1, c1) := by
              simp [pydict_get]
            rw [hl]
            constructor
            · intro hwc
              obtain ⟨h1, h2⟩ := Prod.mk.injEq _ _ _ _ ▸ Option.some.inj hwc
              exact ⟨by rw [h1], by rw [h2], by rw [← h1, ← h2]; exact hne⟩
            · rintro ⟨h1, h2, _⟩
              rw [Option.some.inj h1, Option.some.inj h2]
          · rw [if_neg hne]
            push_neg at hne
            have htail : pydict_get tail k1 = none := by
              rw [get_eq_none_iff]
              intro hmem
              exact hnd1 (by simpa [pykeys] using diff_changes_keys curr rest tail hr k1 hmem)
            rw [htail]
            constructor
            · intro h0
              cases h0
            · rintro ⟨h1, h2, h3⟩
              exfalso
              apply h3
              rw [← Option.some.inj h1, ← Option.some.inj h2]
              exact hne
        · have hstep : pydict_get (if w1 ≠ c1 then (k1, (w1, c1)) :: tail else tail) k =
              pydict_get tail k := by
            by_cases hne : w1 ≠ c1
            · rw [if_pos hne]
              simp [pydict_get, hk]
            · rw [if_neg hne]
          have hp : pydict_get ((k1, w1) :: rest) k = pydict_get rest k := by
            simp [pydict_get, hk]
          rw [hstep, hp]
          exact ih tail hnd2 hr k w c

/-- Keys not effectively touched by the field loop keep their lookup: `k`
is no listed field's attname, and any listed relation field whose
accessor name is `k` has an unpopulated cache. -/
theorem cs_untouched (inst : Instance) (k : String) :
    ∀ fs : List ModelField,
      (∀ f ∈ fs, f.attname ≠ k ∧
        (f.rel = true → f.name = k → pydict_get inst.relCache k = none)) →
      ∀ acc, pydict_get (fs.foldl (read_field inst) acc) k = pydict_get acc k := by
  intro fs
  induction fs with
  | nil =>
    intro _ acc
    rfl
  | cons f rest ih =>
    intro h acc
    rw [List.foldl_cons]
    rw [ih (fun g hg => h g (List.mem_cons_of_mem _ hg)) _]
    obtain ⟨ha, hb⟩ := h f (List.mem_cons_self _ _)
    simp only [read_field]
    by_cases hr : f.rel = true
    · rw [if_pos hr]
      cases hrel : pydict_get inst.relCache f.name with
      | none => exact get_dict_set_ne ha _ _
      | some v =>
        have hnk : f.name ≠ k := by
          intro he
          rw [he] at hrel
          rw [hb hr he] at hrel
          cases hrel
        rw [get_dict_set_ne hnk]
        exact get_dict_set_ne ha _ _
    · rw [if_neg hr]
      exact get_dict_set_ne ha _ _

/-- The field loop stores the live attname value at each field's attname. -/
theorem cs_attname (inst : Instance) :
    ∀ fs : List ModelField, ∀ f ∈ fs,
      (fs.map ModelField.attname).Nodup →
      (∀ g ∈ fs, ∀ f2 ∈ fs, g.rel = true → g.name ≠ f2.attname) →
      ∀ acc, pydict_get (fs.foldl (read_field inst) acc) f.attname =
        some (inst.attrs f.attname) := by
  intro fs
  induction fs with
  | nil =>
    intro f hf
    cases hf
  | cons g rest ih =>
    intro f hf hnd hrn acc
    obtain ⟨hnd1, hnd2⟩ : g.attname ∉ rest.map ModelField.attname ∧
        (rest.map ModelField.attname).Nodup := by
      rw [List.map_cons, List.nodup_cons] at hnd
      exact hnd
    rw [List.foldl_cons]
    rcases List.mem_cons.mp hf with he | hm
    · subst he
      have hcond : ∀ r ∈ rest, r.attname ≠ f.attname ∧
          (r.rel = true → r.name = f.attname →
            pydict_get inst.relCache f.attname = none) := by
        intro r hr2
        constructor
        · intro he2
          exact hnd1 (he2 ▸ List.mem_map_of_mem ModelField.attname hr2)
        · intro hrrel he2
          exact absurd he2
            (hrn r (List.mem_cons_of_mem _ hr2) f (List.mem_cons_self _ _) hrrel)
      rw [cs_untouched inst f.attname rest hcond]
      simp only [read_field]
      by_cases hr : f.rel = true
      · rw [if_pos hr]
        cases hrel : pydict_get inst.relCache f.name with
        | none => exact get_dict_set_eq _ _ _
        | some v =>
          have hne : f.name ≠ f.attname :=
            hrn f (List.mem_cons_self _ _) f (List.mem_cons_self _ _) hr
          rw [get_dict_set_ne hne]
          exact get_dict_set_eq _ _ _
      · rw [if_neg hr]
        exact get_dict_set_eq _ _ _
    · exact ih f hm hnd2
        (fun a ha b hb =>
          hrn a (List.mem_cons_of_mem _ ha) b (List.mem_cons_of_mem _ hb)) _

/-- The field loop stores a populated relation cache value under the
field's accessor name. -/
theorem cs_relname_cached (inst : Instance) :
    ∀ fs : List ModelField, ∀ f ∈ fs, ∀ v : Value,
      f.rel = true → pydict_get inst.relCache f.name = some v →
      (∀ g ∈ fs, ∀ f2 ∈ fs, g.rel = true → g.name ≠ f2.attname) →
      ((fs.filter ModelField.rel).map ModelField.name).Nodup →
      ∀ acc, pydict_get (fs.foldl (read_field inst) acc) f.name = some v := by
  intro fs
  induction fs with
  | nil =>
    intro f hf
    cases hf
  | cons g rest ih =>
    intro f hf v hrel hcache hrn hrd acc
    rw [List.foldl_cons]
    rcases List.mem_cons.mp hf with he | hm
    · subst he
      have hcons : (f :: rest).filter ModelField.rel = f :: rest.filter ModelField.rel := by
        simp [List.filter_cons, hrel]
      rw [hcons, List.map_cons, List.nodup_cons] at hrd
      obtain ⟨hrd1, hrd2⟩ := hrd
      have hcond : ∀ r ∈ rest, r.attname ≠ f.name ∧
          (r.rel = true → r.name = f.name →
            pydict_get inst.relCache f.name = none) := by
        intro r hr2
        constructor
        · intro he2
          exact (hrn f (List.mem_cons_self _ _) r (List.mem_cons_of_mem _ hr2) hrel)
            he2.symm
        · intro hr3 he3
          exfalso
          apply hrd1
          rw [← he3]
          exact List.mem_map_of_mem ModelField.name (List.mem_filter.mpr ⟨hr2, hr3⟩)
      rw [cs_untouched inst f.name rest hcond]
      simp only [read_field]
      rw [if_pos hrel, hcache]
      exact get_dict_set_eq _ _ _
    · have hrd2 : ((rest.filter ModelField.rel).map ModelField.name).Nodup := by
        by_cases hgr : g.rel = true
        · have hcons : (g :: rest).filter ModelField.rel =
              g :: rest.filter ModelField.rel := by
            simp [List.filter_cons, hgr]
          rw [hcons, List.map_cons, List.nodup_cons] at hrd
          exact hrd.2
        · have hcons : (g :: rest).filter ModelField.rel =
              rest.filter ModelField.rel := by
            simp [List.filter_cons, hgr]
          rw [hcons] at hrd
          exact hrd
      exact ih f hm v hrel hcache
        (fun a ha b hb =>
          hrn a (List.mem_cons_of_mem _ ha) b (List.mem_cons_of_mem _ hb)) hrd2 _

/-- The captured state always has pairwise distinct keys. -/
theorem cs_keys_nodup (meta : Meta) (inst : Instance) :
    (pykeys (current_state meta inst)).Nodup := by
  have haux : ∀ fs : List ModelField, ∀ acc : PyDict Value,
      (pykeys acc).Nodup → (pykeys (fs.foldl (read_field inst) acc)).Nodup := by
    intro fs
    induction fs with
    | nil =>
      intro acc h
      exact h
    | cons f rest ih =>
      intro acc h
      rw [List.foldl_cons]
      apply ih
      simp only [read_field]
      by_cases hr : f.rel = true
      · rw [if_pos hr]
        cases hrel : pydict_get inst.relCache f.name with
        | none => exact nodup_pykeys_dict_set _ _ _ h
        | some v => exact nodup_pykeys_dict_set _ _ _ (nodup_pykeys_dict_set _ _ _ h)
      · rw [if_neg hr]
        exact nodup_pykeys_dict_set _ _ _ h
  exact haux meta.local_fields [] (by simp [pykeys])

/-- Two instances agreeing on every attname value and every relation
cache entry capture identical states. -/
theorem cs_congr (meta : Meta) (i1 i2 : Instance)
    (h : ∀ f ∈ meta.local_fields, i1.attrs f.attname = i2.attrs f.attname ∧
      (f.rel = true → pydict_get i1.relCache f.name = pydict_get i2.relCache f.name)) :
    current_state meta i1 = current_state meta i2 := by
  have haux : ∀ fs : List ModelField,
      (∀ f ∈ fs, i1.attrs f.attname = i2.attrs f.attname ∧
        (f.rel = true →
          pydict_get i1.relCache f.name = pydict_get i2.relCache f.name)) →
      ∀ acc, fs.foldl (read_field i1) acc = fs.foldl (read_field i2) acc := by
    intro fs
    induction fs with
    | nil =>
      intro _ _
      rfl
    | cons f rest ih =>
      intro hh acc
      rw [List.foldl_cons, List.foldl_cons]
      obtain ⟨ha, hb⟩ := hh f (List.mem_cons_self _ _)
      have hrf : read_field i1 acc f = read_field i2 acc f := by
        simp only [read_field]
        rw [ha]
        by_cases hr : f.rel = true
        · rw [if_pos hr, if_pos hr, hb hr]
        · rw [if_neg hr, if_neg hr]
      rw [hrf]
      exact ih (fun g hg => hh g (List.mem_cons_of_mem _ hg)) _
  exact haux meta.local_fields h []

/-- A setattr fold leaves an attribute alone when its key appears in no
entry. -/
theorem ifs_attrs_none (meta : Meta) (k : String) :
    ∀ s : PyDict Value, pydict_get s k = none → ∀ i0 : Instance,
      (s.foldl (fun i p => set_attr meta i p.1 p.2) i0).attrs k = i0.attrs k := by
  intro s
  induction s with
  | nil =>
    intro _ i0
    rfl
  | cons p rest ih =>
    obtain ⟨k1, v1⟩ := p
    intro hget i0
    by_cases he : k1 = k
    · rw [show pydict_get ((k1, v1) :: rest) k = some v1 by simp [pydict_get, he]] at hget
      cases hget
    · have hget2 : pydict_get rest k = none := by
        rw [show pydict_get ((k1, v1) :: rest) k = pydict_get rest k by
          simp [pydict_get, he]] at hget
        exact hget
      rw [List.foldl_cons, ih hget2]
      simp only [set_attr]
      by_cases hb : relname meta k1
      · rw [if_pos hb]
      · rw [if_neg hb]
        show (if k = k1 then v1 else i0.attrs k) = i0.attrs k
        exact if_neg (fun hh => he hh.symm)

/-- A setattr fold through a non-descriptor key stores the last written
value as a plain attribute. -/
theorem ifs_attrs (meta : Meta) (k : String) (hk : relname meta k = false) :
    ∀ s : PyDict Value, (pykeys s).Nodup → ∀ (i0 : Instance) (v : Value),
      pydict_get s k = some v →
      (s.foldl (fun i p => set_attr meta i p.1 p.2) i0).attrs k = v := by
  intro s
  induction s with
  | nil =>
    intro _ i0 v hget
    cases hget
  | cons p rest ih =>
    obtain ⟨k1, v1⟩ := p
    intro hnd i0 v hget
    obtain ⟨hnd1, hnd2⟩ : k1 ∉ pykeys rest ∧ (pykeys rest).Nodup := by
      simp only [pykeys, List.map_cons, List.nodup_cons] at hnd
      exact hnd
    rw [List.foldl_cons]
    by_cases he : k1 = k
    · subst he
      have hv : v1 = v := by
        rw [show pydict_get ((k1, v1) :: rest) k1 = some v1 by simp [pydict_get]] at hget
        exact Option.some.inj hget
      have hrest : pydict_get rest k1 = none := (get_eq_none_iff rest k1).mpr hnd1
      rw [ifs_attrs_none meta k1 rest hrest]
      simp only [set_attr]
      rw [if_neg (by simp [hk])]
      simp [hv]
    · have hget2 : pydict_get rest k = some v := by
        rw [show pydict_get ((k1, v1) :: rest) k = pydict_get rest k by
          simp [pydict_get, he]] at hget
        exact hget
      exact ih hnd2 (set_attr meta i0 k1 v1) v hget2

/-- A setattr fold leaves the relation cache lookup of a key alone when
the key appears in no entry. -/
theorem ifs_cache_none (meta : Meta) (k : String) :
    ∀ s : PyDict Value, pydict_get s k = none → ∀ i0 : Instance,
      pydict_get ((s.foldl (fun i p => set_attr meta i p.1 p.2) i0).relCache) k =
        pydict_get i0.relCache k := by
  intro s
  induction s with
  | nil =>
    intro _ i0
    rfl
  | cons p rest ih =>
    obtain ⟨k1, v1⟩ := p
    intro hget i0
    by_cases he : k1 = k
    · rw [show pydict_get ((k1, v1) :: rest) k = some v1 by simp [pydict_get, he]] at hget
      cases hget
    · have hget2 : pydict_get rest k = none := by
        rw [show pydict_get ((k1, v1) :: rest) k = pydict_get rest k by
          simp [pydict_get, he]] at hget
        exact hget
      rw [List.foldl_cons, ih hget2]
      simp only [set_attr]
      by_cases hb : relname meta k1
      · rw [if_pos hb]
        exact get_dict_set_ne he _ _
      · rw [if_neg hb]

/-- A setattr fold through a relation descriptor key stores the written
value in the relation cache. -/
theorem ifs_cache_some (meta : Meta) (k : String) (hk : relname meta k = true) :
    ∀ s : PyDict Value, (pykeys s).Nodup → ∀ (i0 : Instance) (v : Value),
      pydict_get s k = some v →
      pydict_get ((s.foldl (fun i p => set_attr meta i p.1 p.2) i0).relCache) k =
        some v := by
  intro s
  induction s with
  | nil =>
    intro _ i0 v hget
    cases hget
  | cons p rest ih =>
    obtain ⟨k1, v1⟩ := p
    intro hnd i0 v hget
    obtain ⟨hnd1, hnd2⟩ : k1 ∉ pykeys rest ∧ (pykeys rest).Nodup := by
      simp only [pykeys, List.map_cons, List.nodup_cons] at hnd
      exact hnd
    rw [List.foldl_cons]
    by_cases he : k1 = k
    · subst he
      have hv : v1 = v := by
        rw [show pydict_get ((k1, v1) :: rest) k1 = some v1 by simp [pydict_get]] at hget
        exact Option.some.inj hget
      have hrest : pydict_get rest k1 = none := (get_eq_none_iff rest k1).mpr hnd1
      rw [ifs_cache_none meta k1 rest hrest]
      simp only [set_attr]
      rw [if_pos hk, ← hv]
      exact get_dict_set_eq _ _ _
    · have hget2 : pydict_get rest k = some v := by
        rw [show pydict_get ((k1, v1) :: rest) k = pydict_get rest k by
          simp [pydict_get, he]] at hget
        exact hget
      exact ih hnd2 (set_attr meta i0 k1 v1) v hget2

/-- Round-trip core: re-reading the fields of an instance reconstructed
from a captured state yields that state again, for well-formed metadata. -/
theorem roundtrip_core (meta : Meta) (inst : Instance) (h : MetaWF meta) :
    current_state meta (instance_from_state meta (current_state meta inst)) =
      current_state meta inst := by
  obtain ⟨hnd, hno, hrd⟩ := h
  have hrn : ∀ g ∈ meta.local_fields, ∀ f2 ∈ meta.local_fields,
      g.rel = true → g.name ≠ f2.attname := by
    intro g hg f2 hf2 hgr he
    have h0 := hno f2 hf2
    have hany : meta.local_fields.any (fun f => f.rel && f.name == f2.attname) = true :=
      List.any_eq_true.mpr ⟨g, hg, by rw [hgr, he]; simp⟩
    rw [relname] at h0
    rw [h0] at hany
    cases hany
  have hkeys : (pykeys (current_state meta inst)).Nodup := cs_keys_nodup meta inst
  apply cs_congr
  intro f hf
  constructor
  · have hga : pydict_get (current_state meta inst) f.attname =
        some (inst.attrs f.attname) :=
      cs_attname inst meta.local_fields f hf hnd hrn []
    exact ifs_attrs meta f.attname (hno f hf) (current_state meta inst) hkeys
      fresh_instance (inst.attrs f.attname) hga
  · intro hr
    have hrel : relname meta f.name = true := by
      rw [relname]
      exact List.any_eq_true.mpr ⟨f, hf, by rw [hr]; simp⟩
    cases hcc : pydict_get inst.relCache f.name with
    | some v =>
      have hs : pydict_get (current_state meta inst) f.name = some v :=
        cs_relname_cached inst meta.local_fields f hf v hr hcc hrn hrd []
      exact ifs_cache_some meta f.name hrel (current_state meta inst) hkeys
        fresh_instance v hs
    | none =>
      have hcond : ∀ r ∈ meta.local_fields, r.attname ≠ f.name ∧
          (r.rel = true → r.name = f.name →
            pydict_get inst.relCache f.name = none) := by
        intro r hr2
        exact ⟨fun he => (hrn f hf r hr2 hr) he.symm, fun _ _ => hcc⟩
      have hs : pydict_get (current_state meta inst) f.name = none :=
        (cs_untouched inst f.name meta.local_fields hcond []).trans rfl
      exact (ifs_cache_none meta f.name (current_state meta inst) hs
        fresh_instance).trans rfl

/-- A push keeps the history within the capacity of 2. -/
theorem push_length_le (sts : List (PyDict Value)) (s : PyDict Value)
    (h : sts.length ≤ 2) : (push sts s).length ≤ 2 := by
  have hlen : (sts ++ [s]).length = sts.length + 1 := by simp
  simp only [push]
  split
  · simp only [List.length_drop, hlen]
    omega
  · next hc =>
    rw [hlen] at hc ⊢
    omega

/-- Event delivery keeps the history within the capacity of 2. -/
theorem run_events_length (meta : Meta) (evs : List Ev) (t : TrackerState)
    (h : t.states.length ≤ 2) : (run_events meta t evs).states.length ≤ 2 := by
  induction evs generalizing t with
  | nil => simpa [run_events] using h
  | cons e rest ih =>
    have hstep : run_events meta t (e :: rest) = run_events meta (step meta t e) rest := rfl
    rw [hstep]
    apply ih
    cases e with
    | save => exact push_length_le _ _ h
    | delete => exact push_length_le _ _ h
    | mutate i => exact h

/-- C4: for every capture sequence the snapshot history never exceeds two
entries, and a push at capacity evicts the oldest snapshot (FIFO) leaving
exactly two; push is total, so it always succeeds. -/
theorem c4_history_bounded :
    (∀ (meta : Meta) (inst : Instance) (evs : List Ev),
      (run_events meta (init_tracker meta inst).1 evs).states.length ≤ 2) ∧
    (∀ (a b s : PyDict Value), push [a, b] s = [b, s]) := by
  constructor
  · intro meta inst evs
    apply run_events_length
    show (push [] (current_state meta inst)).length ≤ 2
    simp [push]
  · intro a b s
    rfl

/-- C6: the post_change signal is never sent for the construction-time
capture, and every non-initial capture sends it exactly once, carrying the
tracked instance and the tracker in its state after the snapshot has been
pushed. -/
theorem c6_signal_discipline :
    (∀ (meta : Meta) (inst : Instance), (init_tracker meta inst).2 = []) ∧
    (∀ (meta : Meta) (t : TrackerState) (et : EventType),
      (save_state meta t false et).2 =
        [((save_state meta t false et).1.inst, (save_state meta t false et).1)] ∧
      (save_state meta t false et).1.states =
        push t.states (current_state meta (save_state meta t false et).1.inst)) :=
  ⟨fun _ _ => rfl, fun _ _ _ => ⟨rfl, rfl⟩⟩

/-- C8 counterexample: with zero snapshots recorded, previous_state and
old_state do fail, but current_state — a live field read that never
consults the history — returns a value instead of failing. -/
theorem c8_counterexample :
    previous_state ⟨inst_id (Value.vint 5), []⟩ = none ∧
    old_state ⟨inst_id (Value.vint 5), []⟩ = none ∧
    current_state meta1 (inst_id (Value.vint 5)) = [("id", Value.vint 5)] :=
  ⟨rfl, rfl, by decide⟩

/-- C8 amended: on an empty history previous_state and old_state fail
(IndexError, the EmptyHistory condition), while current_state is computed
from the live instance alone — independent of the history — and succeeds. -/
theorem c8_empty_history (meta : Meta) (inst : Instance) :
    previous_state ⟨inst, []⟩ = none ∧ old_state ⟨inst, []⟩ = none ∧
    ∀ sts1 sts2 : List (PyDict Value),
      current_state meta (TrackerState.mk inst sts1).inst =
        current_state meta (TrackerState.mk inst sts2).inst :=
  ⟨rfl, rfl, fun _ _ => rfl⟩

/-- C5: a successful changes() contains key `k` with value `(w, c)`
exactly when the earlier snapshot (previous_state) holds `w` at `k`, the
current state holds `c`, and the two differ; in particular keys with
equal values are absent, and (by diff_changes_keys) only keys of the
earlier snapshot are consulted. -/
theorem c5_changes_spec (meta : Meta) (t : TrackerState) (prev : PyDict Value)
    (d : PyDict (Value × Value)) (hp : previous_state t = some prev)
    (hnd : (pykeys prev).Nodup) (hd : changes meta t = some d) :
    ∀ (k : String) (w c : Value),
      pydict_get d k = some (w, c) ↔
        pydict_get prev k = some w ∧
        pydict_get (current_state meta t.inst) k = some c ∧ w ≠ c := by
  have hdc : diff_changes prev (current_state meta t.inst) = some d := by
    have := hd
    rw [changes, hp] at this
    exact this
  intro k w c
  exact diff_changes_get (current_state meta t.inst) prev d hnd hdc k w c

/-- C5 witness: the general per-key description instantiated on a
concrete tracker whose live instance was mutated from pk 5 to pk 6. -/
theorem c5_changes_spec_witness :
    pydict_get [("id", (Value.vint 5, Value.vint 6))] "id" =
      some (Value.vint 5, Value.vint 6) :=
  ((c5_changes_spec meta1 t_id5_mut [("id", Value.vint 5)]
      [("id", (Value.vint 5, Value.vint 6))] (by decide) (by decide) (by decide))
    "id" (Value.vint 5) (Value.vint 6)).mpr (by decide)

/-- C7: was_persisted is the truthiness of the primary key stored in
old_state (true exactly when it is neither null nor zero, for null or
integer keys), is_persisted is the truthiness of the live primary key,
and in the construct-then-save-with-pk-7 scenario was_persisted is false
while is_persisted is true. -/
theorem c7_persistence :
    (∀ (meta : Meta) (t : TrackerState) (v : Value),
      (old_state t).bind (fun s => pydict_get s meta.pk_attname) = some v →
      (v = Value.vnone ∨ ∃ n : Int, v = Value.vint n) →
      (was_persisted meta t = some true ↔ v ≠ Value.vnone ∧ v ≠ Value.vint 0)) ∧
    (∀ (meta : Meta) (t : TrackerState),
      (t.inst.attrs meta.pk_attname = Value.vnone ∨
        ∃ n : Int, t.inst.attrs meta.pk_attname = Value.vint n) →
      (is_persisted meta t = true ↔
        t.inst.attrs meta.pk_attname ≠ Value.vnone ∧
        t.inst.attrs meta.pk_attname ≠ Value.vint 0)) ∧
    was_persisted meta1 t_pk7 = some false ∧
    is_persisted meta1 t_pk7 = true := by
  refine ⟨?_, ?_, by decide, by decide⟩
  · intro meta t v hv hdisj
    cases hos : old_state t with
    | none =>
      rw [hos] at hv
      cases hv
    | some s0 =>
      rw [hos] at hv
      have hv2 : pydict_get s0 meta.pk_attname = some v := hv
      have hw : was_persisted meta t = some (truthy v) := by
        rw [was_persisted, hos]
        show (pydict_get s0 meta.pk_attname).map truthy = some (truthy v)
        rw [hv2]
        rfl
      rw [hw]
      rcases hdisj with hnone | ⟨n, hn⟩
      · subst hnone
        simp [truthy]
      · subst hn
        by_cases h0 : n = 0
        · subst h0
          simp [truthy]
        · simp [truthy, h0]
  · intro meta t hdisj
    rw [is_persisted]
    rcases hdisj with hnone | ⟨n, hn⟩
    · rw [hnone]
      simp [truthy]
    · rw [hn]
      by_cases h0 : n = 0
      · subst h0
        simp [truthy]
      · simp [truthy, h0]

/-- C10: the diff helper fails exactly when a key of the earlier mapping
is missing from the later one, and — since the snapshot carries a
relation field's cached value under the field name only while the cache
is populated — a tracker whose old snapshot was captured with a populated
cache and whose live instance has since lost it makes old_changes() and
changes() fail with a key-lookup error. -/
theorem c10_diff_partiality :
    (∀ prev curr : PyDict Value,
      diff_changes prev curr = none ↔ ∃ p ∈ prev, pydict_get curr p.1 = none) ∧
    pydict_get (current_state metaR inst_rel_cached) "rel" = some (Value.vint 9) ∧
    pydict_get (current_state metaR t_rel.inst) "rel" = none ∧
    old_changes metaR t_rel = none ∧
    changes metaR t_rel = none := by
  refine ⟨fun prev curr => diff_changes_none_iff prev curr,
    by decide, by decide, by decide, by decide⟩

/-- C1 counterexample: mutating the tracked instance's field after a
capture, with no new capture, changes the results of current_state() and
changes(), so these queries are live reads, not snapshot reads. -/
theorem c1_counterexample :
    t_id5_mut.states = t_id5.states ∧
    current_state meta1 t_id5_mut.inst ≠ current_state meta1 t_id5.inst ∧
    changes meta1 t_id5_mut ≠ changes meta1 t_id5 :=
  ⟨rfl, by decide, by decide⟩

/-- C1 amended: previous_state, old_state and previous_changes read only
the snapshot history, but current_state (and with it changes and
old_changes) re-reads the tracked instance's live field values, which is
independent of the history. -/
theorem c1_query_dependencies (meta : Meta) (i1 i2 : Instance)
    (sts : List (PyDict Value)) :
    previous_state ⟨i1, sts⟩ = previous_state ⟨i2, sts⟩ ∧
    old_state ⟨i1, sts⟩ = old_state ⟨i2, sts⟩ ∧
    previous_changes ⟨i1, sts⟩ = previous_changes ⟨i2, sts⟩ ∧
    ∀ sts2, current_state meta (TrackerState.mk i1 sts).inst =
      current_state meta (TrackerState.mk i1 sts2).inst :=
  ⟨rfl, rfl, rfl, fun _ => rfl⟩

/-- C2 counterexample: after the delete capture, previous_state (the most
recent capture) has a null primary key, not 5, and changes() is empty
rather than mapping the key to (5, null). -/
theorem c2_counterexample :
    (previous_state t_del5).bind (fun s => pydict_get s "id") = some Value.vnone ∧
    (previous_state t_del5).bind (fun s => pydict_get s "id") ≠ some (Value.vint 5) ∧
    changes meta1 t_del5 = some [] ∧
    changes meta1 t_del5 ≠ some [("id", (Value.vint 5, Value.vnone))] := by
  refine ⟨by decide, by decide, by decide, by decide⟩

/-- C2 amended: the delete capture clears the live primary key before the
snapshot is taken; afterwards current_state's pk is null, old_state's pk
is still 5, and old_changes (the diff against the oldest snapshot) maps
the key to (5, null) — while previous_state, the just-captured delete
snapshot, already has a null pk and changes() is empty. -/
theorem c2_delete_scenario :
    t_del5.inst.attrs "id" = Value.vnone ∧
    t_del5.states = [[("id", Value.vint 5)], [("id", Value.vnone)]] ∧
    current_state meta1 t_del5.inst = [("id", Value.vnone)] ∧
    (old_state t_del5).bind (fun s => pydict_get s "id") = some (Value.vint 5) ∧
    old_changes meta1 t_del5 = some [("id", (Value.vint 5, Value.vnone))] ∧
    previous_state t_del5 = some [("id", Value.vnone)] ∧
    changes meta1 t_del5 = some [] := by
  refine ⟨by decide, by decide, by decide, by decide, by decide, by decide, by decide⟩

/-- C3 counterexample: after captures A, B, C only B and C are retained,
so old_changes() carries no entry for the primary key (the claim expected
the A-to-C diff with pk null to 1), and changes() is empty (the claim
expected the B-to-C name diff). -/
theorem c3_counterexample :
    old_changes meta2 t_abc = some [("name", (Value.vstr "x", Value.vstr "y"))] ∧
    (old_changes meta2 t_abc).bind (fun d => pydict_get d "id") = none ∧
    changes meta2 t_abc = some [] := by
  refine ⟨by decide, by decide, by decide⟩

/-- C9: for a tracker with at least one snapshot whose retained states
were captured by the field reader, old_instance() reconstructs a detached
instance whose re-read via the field reader is exactly old_state(), and
likewise for previous_instance() and previous_state(). -/
theorem c9_roundtrip (meta : Meta) (h : MetaWF meta) :
    (∀ (t : TrackerState) (inst0 : Instance) (s : PyDict Value),
      old_state t = some s → s = current_state meta inst0 →
      old_instance meta t = some (instance_from_state meta s) ∧
      current_state meta (instance_from_state meta s) = s) ∧
    (∀ (t : TrackerState) (inst0 : Instance) (s : PyDict Value),
      previous_state t = some s → s = current_state meta inst0 →
      previous_instance meta t = some (instance_from_state meta s) ∧
      current_state meta (instance_from_state meta s) = s) := by
  constructor
  · intro t inst0 s hs hcap
    subst hcap
    refine ⟨?_, roundtrip_core meta inst0 h⟩
    rw [old_instance, hs]
    rfl
  · intro t inst0 s hs hcap
    subst hcap
    refine ⟨?_, roundtrip_core meta inst0 h⟩
    rw [previous_instance, hs]
    rfl

/-- C9 witness: the round-trip applied to the tracker constructed for the
relational instance with a populated cache. -/
theorem c9_roundtrip_witness :
    old_instance metaR (init_tracker metaR inst_rel_cached).1 =
      some (instance_from_state metaR s_rel) ∧
    current_state metaR (instance_from_state metaR s_rel) = s_rel :=
  (c9_roundtrip metaR (by decide)).1 (init_tracker metaR inst_rel_cached).1
    inst_rel_cached s_rel (by decide) rfl

/-- C3 amended: after the three captures the history retains only B and
C; old_changes() diffs B against the live state (name only),
previous_changes() diffs B against C (name only), and changes() diffs C
against the live state, which is empty since the instance is unchanged
since capture C. -/
theorem c3_three_capture_scenario :
    t_abc.states =
      [[("id", Value.vint 1), ("name", Value.vstr "x")],
       [("id", Value.vint 1), ("name", Value.vstr "y")]] ∧
    old_changes meta2 t_abc = some [("name", (Value.vstr "x", Value.vstr "y"))] ∧
    previous_changes t_abc = some [("name", (Value.vstr "x", Value.vstr "y"))] ∧
    changes meta2 t_abc = some [] := by
  refine ⟨by decide, by decide, by decide, by decide⟩
